import Mathlib

/-!
Verification development for the cargo-lock crate.

The file gives a shallow embedding of the lockfile deserializer
(`src/lockfile/parser.rs`, the custom serde visitor `Visitor::visit_map`
together with `FieldVisitor::visit_str`) and of the CLI subcommands
(`src/bin/cargo-lock/main.rs`: `ListCmd::run`, `TranslateCmd::run`,
`TreeCmd::run`).  Crate components that those two files call into but
whose sources are not part of the two files above (resolve-version
detection, the dependency graph builder, the tree renderer, dependency
display) are modelled from the specification, as marked on each such
definition.

The underlying TOML layer is out of scope per the specification: the
deserializer consumes a generic ordered sequence of already-decoded
top-level sections, with unknown and duplicate keys possible.
-/

set_option autoImplicit false

deriving instance DecidableEq for Except

namespace CargoLock

/-- A dependency reference: a possibly partial package identifier with a
name, an optional semantic version and an optional source locator. -/
structure Dependency where
  name : String
  version : Option String
  source : Option String
deriving DecidableEq

/-- A resolved package: identity fields, an optional inline content
checksum, and the ordered list of dependency references. -/
structure Package where
  name : String
  version : String
  source : Option String
  checksum : Option String
  dependencies : List Dependency
deriving DecidableEq

/-- The `[metadata]` section: an ordered mapping from string keys to
string values. -/
abbrev Metadata := List (String × String)

/-- The `[patch]` section: packages patched out of the resolution. -/
structure Patch where
  unused : List Package
deriving DecidableEq

/-- The historical lockfile format revisions. -/
inductive ResolveVersion where
  | v1
  | v2
  | v3
deriving DecidableEq

/-- Modelled from the spec: the default `ResolveVersion` (used by
`TranslateCmd::run` via `unwrap_or_default`) is the newest supported
revision; the `Default` impl lives outside the embedded source files. -/
def ResolveVersion.default : ResolveVersion := .v3

/-- The package identity triple used as a graph node key. -/
structure PackageId where
  name : String
  version : String
  source : Option String
deriving DecidableEq, Inhabited

/-- The identity of a package. -/
def Package.id (p : Package) : PackageId :=
  ⟨p.name, p.version, p.source⟩

/-- Errors surfaced by deserialization and by graph construction. -/
inductive Error where
  | duplicateField (key : String)
  | missingField (key : String)
  | formatConflict
  | unresolvedDependency (fromPkg : PackageId) (reference : Dependency)
  | ambiguousDependency (fromPkg : PackageId) (reference : Dependency)
deriving DecidableEq

/-- The canonical in-memory lockfile model. -/
structure Lockfile where
  version : ResolveVersion
  root : Option Dependency
  packages : List Package
  metadata : Metadata
  patch : Patch
deriving DecidableEq

/-- The recognized top-level field names, as in the `FIELDS` constant of
`src/lockfile/parser.rs`. -/
def FIELDS : List String := ["package", "root", "metadata", "patch"]

/-- The `Field` enumeration of `src/lockfile/parser.rs`: the four
recognized sections plus the catch-all for ignored unknown fields. -/
inductive Field where
  | package
  | root
  | metadata
  | patch
  | ignore
deriving DecidableEq

/-- Embedding of `FieldVisitor::visit_str`: classify a top-level key. -/
def FieldVisitor.visitStr (value : String) : Field :=
  match value with
  | "package" => .package
  | "root" => .root
  | "metadata" => .metadata
  | "patch" => .patch
  | _ => .ignore

/-- One already-decoded top-level section of the generic document handed
to the deserializer by the (out of scope) TOML layer.  An unknown
section carries its key, which by construction is none of the four
recognized names (otherwise the TOML layer would have decoded it into
the corresponding recognized section). -/
inductive Section where
  | package (packages : List Package)
  | root (dep : Dependency)
  | metadata (m : Metadata)
  | patch (p : Patch)
  | unknown (key : String) (hk : key ∉ FIELDS)

/-- The top-level key under which a section appears in the document. -/
def Section.key : Section → String
  | .package _ => "package"
  | .root _ => "root"
  | .metadata _ => "metadata"
  | .patch _ => "patch"
  | .unknown k _ => k

/-- Number of sections of the document carrying the given key. -/
def keyCount (k : String) (doc : List Section) : Nat :=
  (doc.map Section.key).count k

/-- The mutable accumulator of `Visitor::visit_map`: the four local
`Option` variables filled while streaming over the document's keys. -/
structure Acc where
  packages : Option (List Package)
  root : Option Dependency
  metadata : Option Metadata
  patch : Option Patch
deriving DecidableEq

/-- The initial accumulator: all four variables start out `None`. -/
def Acc.init : Acc := ⟨none, none, none, none⟩

/-- One iteration of the `while let Some(key) = next_key()` loop of
`Visitor::visit_map`: dispatch on the recognized field, rejecting a
second occurrence with a duplicate-field error; unknown fields are
ignored. -/
def step (acc : Acc) (s : Section) : Except Error Acc :=
  match s with
  | .package ps =>
    match acc.packages with
    | some _ => .error (.duplicateField "package")
    | none => .ok { acc with packages := some ps }
  | .root d =>
    match acc.root with
    | some _ => .error (.duplicateField "root")
    | none => .ok { acc with root := some d }
  | .metadata m =>
    match acc.metadata with
    | some _ => .error (.duplicateField "metadata")
    | none => .ok { acc with metadata := some m }
  | .patch p =>
    match acc.patch with
    | some _ => .error (.duplicateField "patch")
    | none => .ok { acc with patch := some p }
  | .unknown _ _ => .ok acc

/-- The key-streaming loop of `Visitor::visit_map`, consuming the
document's sections in order. -/
def visitLoop (acc : Acc) : List Section → Except Error Acc
  | [] => .ok acc
  | s :: rest =>
    match step acc s with
    | .ok next => visitLoop next rest
    | .error e => .error e

/-- Modelled from the spec: recognizer for the V1 composite checksum
keys of the legacy metadata table, which have the form
`checksum <name> <version> (<source>)`; the key recognizer lives outside
the embedded source files. -/
def isChecksumKey (key : String) : Bool :=
  ("checksum ".data).isPrefixOf key.data

/-- Modelled from the spec: `ResolveVersion::detect` lives outside the
embedded source files.  Checksums stored in the legacy metadata table
classify the document as V1; inline per-package checksums classify it as
a newer revision (V3 when compact name-only dependency references are
present, otherwise V2); both storage layouts at once are a format
conflict; remaining documents, whose signals are consistent with several
revisions, default to the newest supported revision. -/
def ResolveVersion.detect (packages : List Package) (metadata : Metadata) :
    Except Error ResolveVersion :=
  let inlineChecksum := packages.any fun p => p.checksum.isSome
  let tableChecksum := metadata.any fun entry => isChecksumKey entry.1
  let compactDeps := packages.any fun p => p.dependencies.any fun d => d.version.isNone
  if inlineChecksum && tableChecksum then .error .formatConflict
  else if tableChecksum then .ok .v1
  else if inlineChecksum then .ok (if compactDeps then .v3 else .v2)
  else .ok .v3

/-- The tail of `Visitor::visit_map` after the key loop: the mandatory
package list is extracted (its absence is a missing-field error),
metadata and patch default to empty, the resolve version is autodetected
(propagating failure), and the lockfile is assembled. -/
def finalize (acc : Acc) : Except Error Lockfile :=
  match acc.packages with
  | none => .error (.missingField "package")
  | some packages =>
    let metadata := acc.metadata.getD []
    let patch := acc.patch.getD ⟨[]⟩
    match ResolveVersion.detect packages metadata with
    | .error e => .error e
    | .ok version => .ok ⟨version, acc.root, packages, metadata, patch⟩

/-- Embedding of `Deserialize for Lockfile` (`Visitor::visit_map`):
stream over the document's sections, then finalize. -/
def Lockfile.deserialize (doc : List Section) : Except Error Lockfile :=
  match visitLoop Acc.init doc with
  | .error e => .error e
  | .ok acc => finalize acc

/-- Modelled from the spec: whether a package satisfies a (possibly
partial) dependency reference — the name must match, and the version
and source must match whenever the reference carries them.  The graph
builder lives outside the embedded source files. -/
def dependencyMatches (p : Package) (r : Dependency) : Bool :=
  p.name == r.name &&
    (match r.version with
     | some v => p.version == v
     | none => true) &&
    (match r.source with
     | some s => p.source == some s
     | none => true)

/-- Modelled from the spec: the package-list indices of the candidate
packages satisfying a dependency reference. -/
def candidateIndices (packages : List Package) (r : Dependency) : List Nat :=
  (packages.enum.filter fun x => dependencyMatches x.2 r).map fun x => x.1

/-- Modelled from the spec: resolve one dependency reference of a
package against the full package list — exactly one candidate yields
its index, zero candidates is an unresolved dependency, several
candidates are an ambiguous dependency. -/
def resolveRef (packages : List Package) (p : Package) (r : Dependency) :
    Except Error Nat :=
  match candidateIndices packages r with
  | [j] => .ok j
  | [] => .error (.unresolvedDependency p.id r)
  | _ => .error (.ambiguousDependency p.id r)

/-- The dependency graph: nodes are package identities with a stable
index in package-list order; edges point from a depending package's
index to the index of each of its dependencies, emitted in package-list
order and, within one package, in dependency-list order. -/
structure Tree where
  nodes : List PackageId
  edges : List (Nat × Nat)
deriving DecidableEq

/-- Modelled from the spec: `Lockfile::dependency_tree` (the dependency
graph builder, outside the embedded source files) resolves every
dependency reference of every package and assembles the edge list,
failing on the first unresolved or ambiguous reference. -/
def Lockfile.dependency_tree (lf : Lockfile) : Except Error Tree :=
  match lf.packages.enum.mapM
      (fun x => x.2.dependencies.mapM fun r =>
        (resolveRef lf.packages x.2 r).map fun j => (x.1, j)) with
  | .error e => .error e
  | .ok edgeLists => .ok ⟨lf.packages.map Package.id, edgeLists.flatten⟩

/-- Direction in which the renderer walks the graph's edges. -/
inductive EdgeDirection where
  | incoming
  | outgoing
deriving DecidableEq

/-- Modelled from the spec: the immediate neighbors of a node, in edge
order — for outgoing edges the dependencies of the node, for incoming
edges its dependents. -/
def Tree.neighbors (t : Tree) (dir : EdgeDirection) (i : Nat) : List Nat :=
  match dir with
  | .outgoing => (t.edges.filter fun e => e.1 == i).map fun e => e.2
  | .incoming => (t.edges.filter fun e => e.2 == i).map fun e => e.1

/-- A line of the rendered tree: two spaces of indentation per level. -/
def indentLine (depth : Nat) (s : String) : String :=
  String.mk (List.replicate (2 * depth) ' ') ++ s

/-- How a node is printed by the renderer. -/
def PackageId.summary (pid : PackageId) : String :=
  pid.name ++ " " ++ pid.version

/-- Modelled from the spec: fuelled depth-first walk of the tree
renderer (outside the embedded source files).  A node already on the
current path is printed once more, annotated, and not recursed into;
nodes reached by other paths are printed again in full. -/
def Tree.renderGo (t : Tree) (dir : EdgeDirection) (fuel : Nat) (i : Nat)
    (path : List Nat) (depth : Nat) : List String :=
  match fuel with
  | 0 => []
  | fuel' + 1 =>
    let line := indentLine depth (t.nodes.getD i default).summary
    if i ∈ path then [line ++ " (*)"]
    else
      line ::
        ((t.neighbors dir i).map fun j =>
          t.renderGo dir fuel' j (i :: path) (depth + 1)).flatten

/-- Modelled from the spec: `Tree::render`, producing the indented
textual tree for a starting node and an edge direction.  The fuel bound
exceeds every possible path length, so it never truncates a walk. -/
def Tree.render (t : Tree) (i : Nat) (dir : EdgeDirection) : List String :=
  t.renderGo dir (t.nodes.length + 1) i [] 0

/-- The `cargo lock list` subcommand's options (`ListCmd`). -/
structure ListCmd where
  file : Option String
deriving DecidableEq

/-- The dependency reference denoting a given package, as in the
`Dependency::from(&Package)` conversion used by `ListCmd::run`. -/
def Dependency.fromPackage (p : Package) : Dependency :=
  ⟨p.name, some p.version, p.source⟩

/-- Modelled from the spec: the display form of a dependency reference
(the `Display` impl lives outside the embedded source files) is
`name version`, with ` (source)` appended when a source is present. -/
def Dependency.display (d : Dependency) : String :=
  d.name ++
    (match d.version with
     | some v => " " ++ v
     | none => "") ++
    (match d.source with
     | some s => " (" ++ s ++ ")"
     | none => "")

/-- Embedding of `ListCmd::run`: one `println!("- {}", ...)` line per
package of the loaded lockfile, in package-list order. -/
def ListCmd.run (lf : Lockfile) : List String :=
  lf.packages.map fun p => "- " ++ (Dependency.fromPackage p).display

/-- The `cargo lock translate` subcommand's options (`TranslateCmd`). -/
structure TranslateCmd where
  file : Option String
  output : Option String
  version : Option ResolveVersion
deriving DecidableEq

/-- Embedding of the document-producing part of `TranslateCmd::run`:
the loaded lockfile's version is overwritten with the requested version,
defaulting to `ResolveVersion.default` when none was requested, and the
result is what gets serialized to the output destination. -/
def TranslateCmd.run (cmd : TranslateCmd) (lf : Lockfile) : Lockfile :=
  { lf with version := cmd.version.getD ResolveVersion.default }

/-- The `cargo lock tree` subcommand's options (`TreeCmd`): an input
file and the free-standing list of dependency names; these are its only
fields. -/
structure TreeCmd where
  file : Option String
  dependencies : List String
deriving DecidableEq

/-- The failure modes of `TreeCmd::run`, each an `eprintln` followed by
`exit(1)` in the source. -/
inductive CliError where
  | dependencyTree (e : Error)
  | noDependencyNames
  | invalidDependencyName (name : String)
deriving DecidableEq

/-- The per-name loop of `TreeCmd::run`: for each requested name, find
the first package with that name (an absent name is an error naming
it), look its identity up in the graph's node table, and render the
tree from that node with the incoming edge direction. -/
def TreeCmd.renderTrees (lf : Lockfile) (tree : Tree) :
    List String → Except CliError (List (List String))
  | [] => .ok []
  | dep :: rest =>
    match lf.packages.find? fun p => p.name == dep with
    | none => .error (.invalidDependencyName dep)
    | some pkg =>
      match TreeCmd.renderTrees lf tree rest with
      | .error e => .error e
      | .ok outs =>
        .ok (tree.render (tree.nodes.indexOf pkg.id) EdgeDirection.incoming :: outs)

/-- Embedding of `TreeCmd::run`: build the dependency graph (failure
terminates the invocation), reject an empty list of names, then render
one tree per requested name. -/
def TreeCmd.run (cmd : TreeCmd) (lf : Lockfile) :
    Except CliError (List (List String)) :=
  match lf.dependency_tree with
  | .error e => .error (.dependencyTree e)
  | .ok tree =>
    if cmd.dependencies.isEmpty then .error .noDependencyNames
    else TreeCmd.renderTrees lf tree cmd.dependencies

/-! ### Auxiliary notions for reasoning about the key-streaming loop -/

/-- The payloads of the document's `package` sections, in order. -/
def sectionsPackages (doc : List Section) : List (List Package) :=
  doc.filterMap fun s =>
    match s with
    | .package ps => some ps
    | _ => none

/-- The payloads of the document's `root` sections, in order. -/
def sectionsRoot (doc : List Section) : List Dependency :=
  doc.filterMap fun s =>
    match s with
    | .root d => some d
    | _ => none

/-- The payloads of the document's `metadata` sections, in order. -/
def sectionsMetadata (doc : List Section) : List Metadata :=
  doc.filterMap fun s =>
    match s with
    | .metadata m => some m
    | _ => none

/-- The payloads of the document's `patch` sections, in order. -/
def sectionsPatch (doc : List Section) : List Patch :=
  doc.filterMap fun s =>
    match s with
    | .patch p => some p
    | _ => none

@[simp]
theorem sectionsPackages_package (ps : List Package) (doc : List Section) :
    sectionsPackages (Section.package ps :: doc) = ps :: sectionsPackages doc := rfl

@[simp]
theorem sectionsPackages_root (d : Dependency) (doc : List Section) :
    sectionsPackages (Section.root d :: doc) = sectionsPackages doc := rfl

@[simp]
theorem sectionsPackages_metadata (m : Metadata) (doc : List Section) :
    sectionsPackages (Section.metadata m :: doc) = sectionsPackages doc := rfl

@[simp]
theorem sectionsPackages_patch (p : Patch) (doc : List Section) :
    sectionsPackages (Section.patch p :: doc) = sectionsPackages doc := rfl

@[simp]
theorem sectionsPackages_unknown (k : String) (hk : k ∉ FIELDS) (doc : List Section) :
    sectionsPackages (Section.unknown k hk :: doc) = sectionsPackages doc := rfl

@[simp]
theorem sectionsPackages_nil : sectionsPackages [] = [] := rfl

@[simp]
theorem sectionsRoot_package (ps : List Package) (doc : List Section) :
    sectionsRoot (Section.package ps :: doc) = sectionsRoot doc := rfl

@[simp]
theorem sectionsRoot_root (d : Dependency) (doc : List Section) :
    sectionsRoot (Section.root d :: doc) = d :: sectionsRoot doc := rfl

@[simp]
theorem sectionsRoot_metadata (m : Metadata) (doc : List Section) :
    sectionsRoot (Section.metadata m :: doc) = sectionsRoot doc := rfl

@[simp]
theorem sectionsRoot_patch (p : Patch) (doc : List Section) :
    sectionsRoot (Section.patch p :: doc) = sectionsRoot doc := rfl

@[simp]
theorem sectionsRoot_unknown (k : String) (hk : k ∉ FIELDS) (doc : List Section) :
    sectionsRoot (Section.unknown k hk :: doc) = sectionsRoot doc := rfl

@[simp]
theorem sectionsRoot_nil : sectionsRoot [] = [] := rfl

@[simp]
theorem sectionsMetadata_package (ps : List Package) (doc : List Section) :
    sectionsMetadata (Section.package ps :: doc) = sectionsMetadata doc := rfl

@[simp]
theorem sectionsMetadata_root (d : Dependency) (doc : List Section) :
    sectionsMetadata (Section.root d :: doc) = sectionsMetadata doc := rfl

@[simp]
theorem sectionsMetadata_metadata (m : Metadata) (doc : List Section) :
    sectionsMetadata (Section.metadata m :: doc) = m :: sectionsMetadata doc := rfl

@[simp]
theorem sectionsMetadata_patch (p : Patch) (doc : List Section) :
    sectionsMetadata (Section.patch p :: doc) = sectionsMetadata doc := rfl

@[simp]
theorem sectionsMetadata_unknown (k : String) (hk : k ∉ FIELDS) (doc : List Section) :
    sectionsMetadata (Section.unknown k hk :: doc) = sectionsMetadata doc := rfl

@[simp]
theorem sectionsMetadata_nil : sectionsMetadata [] = [] := rfl

@[simp]
theorem sectionsPatch_package (ps : List Package) (doc : List Section) :
    sectionsPatch (Section.package ps :: doc) = sectionsPatch doc := rfl

@[simp]
theorem sectionsPatch_root (d : Dependency) (doc : List Section) :
    sectionsPatch (Section.root d :: doc) = sectionsPatch doc := rfl

@[simp]
theorem sectionsPatch_metadata (m : Metadata) (doc : List Section) :
    sectionsPatch (Section.metadata m :: doc) = sectionsPatch doc := rfl

@[simp]
theorem sectionsPatch_patch (p : Patch) (doc : List Section) :
    sectionsPatch (Section.patch p :: doc) = p :: sectionsPatch doc := rfl

@[simp]
theorem sectionsPatch_unknown (k : String) (hk : k ∉ FIELDS) (doc : List Section) :
    sectionsPatch (Section.unknown k hk :: doc) = sectionsPatch doc := rfl

@[simp]
theorem sectionsPatch_nil : sectionsPatch [] = [] := rfl

/-- Whether an optional value is filled, as a count. -/
def optCount {α : Type} : Option α → Nat
  | some _ => 1
  | none => 0

@[simp]
theorem optCount_some {α : Type} (a : α) : optCount (some a) = 1 := rfl

@[simp]
theorem optCount_none {α : Type} : optCount (none : Option α) = 0 := rfl

theorem optCount_le_one {α : Type} (o : Option α) : optCount o ≤ 1 := by
  cases o <;> simp

/-- Left-biased combination of optional values. -/
def optOr {α : Type} (a b : Option α) : Option α :=
  match a with
  | some x => some x
  | none => b

@[simp]
theorem optOr_some {α : Type} (a : α) (b : Option α) : optOr (some a) b = some a := rfl

@[simp]
theorem optOr_none {α : Type} (b : Option α) : optOr none b = b := rfl

@[simp]
theorem optOr_right_none {α : Type} (a : Option α) : optOr a none = a := by
  cases a <;> rfl

/-- The accumulator value reached after successfully streaming over a
document: each field keeps its old value or takes the payload of the
first corresponding section. -/
def Acc.after (acc : Acc) (doc : List Section) : Acc :=
  ⟨optOr acc.packages (sectionsPackages doc).head?,
   optOr acc.root (sectionsRoot doc).head?,
   optOr acc.metadata (sectionsMetadata doc).head?,
   optOr acc.patch (sectionsPatch doc).head?⟩

/-- Compatibility of an accumulator with a document: no recognized
section occurs in the document when the corresponding accumulator field
is already filled, and none occurs twice. -/
def Acc.compat (acc : Acc) (doc : List Section) : Prop :=
  optCount acc.packages + (sectionsPackages doc).length ≤ 1 ∧
  optCount acc.root + (sectionsRoot doc).length ≤ 1 ∧
  optCount acc.metadata + (sectionsMetadata doc).length ≤ 1 ∧
  optCount acc.patch + (sectionsPatch doc).length ≤ 1

/-- Characterization of the successful runs of the key-streaming loop:
the loop succeeds exactly on accumulator-compatible documents, and then
computes `Acc.after`. -/
theorem visitLoop_ok_iff (doc : List Section) :
    ∀ (acc acc' : Acc),
      visitLoop acc doc = .ok acc' ↔ (Acc.compat acc doc ∧ acc' = Acc.after acc doc) := by
  induction doc with
  | nil =>
    intro acc acc'
    constructor
    · intro h
      refine ⟨⟨?_, ?_, ?_, ?_⟩, ?_⟩ <;>
        simp_all [visitLoop, Acc.compat, Acc.after, sectionsPackages, sectionsRoot,
          sectionsMetadata, sectionsPatch, optCount_le_one]
    · rintro ⟨-, rfl⟩
      simp [visitLoop, Acc.after, sectionsPackages, sectionsRoot,
        sectionsMetadata, sectionsPatch]
  | cons s rest ih =>
    intro acc acc'
    cases s with
    | package ps =>
      cases hp : acc.packages with
      | some q =>
        simp only [visitLoop, step, hp]
        constructor
        · intro h; cases h
        · rintro ⟨⟨h1, -⟩, -⟩
          rw [show sectionsPackages (Section.package ps :: rest) =
            ps :: sectionsPackages rest from rfl] at h1
          simp [hp] at h1
      | none =>
        simp only [visitLoop, step, hp]
        rw [ih]
        unfold Acc.compat Acc.after
        rw [show sectionsPackages (Section.package ps :: rest) =
          ps :: sectionsPackages rest from rfl,
          show sectionsRoot (Section.package ps :: rest) = sectionsRoot rest from rfl,
          show sectionsMetadata (Section.package ps :: rest) = sectionsMetadata rest from rfl,
          show sectionsPatch (Section.package ps :: rest) = sectionsPatch rest from rfl]
        simp [hp]
    | root d =>
      cases hp : acc.root with
      | some q =>
        simp only [visitLoop, step, hp]
        constructor
        · intro h; cases h
        · rintro ⟨⟨-, h1, -⟩, -⟩
          rw [show sectionsRoot (Section.root d :: rest) =
            d :: sectionsRoot rest from rfl] at h1
          simp [hp] at h1
      | none =>
        simp only [visitLoop, step, hp]
        rw [ih]
        unfold Acc.compat Acc.after
        rw [show sectionsPackages (Section.root d :: rest) = sectionsPackages rest from rfl,
          show sectionsRoot (Section.root d :: rest) = d :: sectionsRoot rest from rfl,
          show sectionsMetadata (Section.root d :: rest) = sectionsMetadata rest from rfl,
          show sectionsPatch (Section.root d :: rest) = sectionsPatch rest from rfl]
        simp [hp]
    | metadata m =>
      cases hp : acc.metadata with
      | some q =>
        simp only [visitLoop, step, hp]
        constructor
        · intro h; cases h
        · rintro ⟨⟨-, -, h1, -⟩, -⟩
          rw [show sectionsMetadata (Section.metadata m :: rest) =
            m :: sectionsMetadata rest from rfl] at h1
          simp [hp] at h1
      | none =>
        simp only [visitLoop, step, hp]
        rw [ih]
        unfold Acc.compat Acc.after
        rw [show sectionsPackages (Section.metadata m :: rest) = sectionsPackages rest from rfl,
          show sectionsRoot (Section.metadata m :: rest) = sectionsRoot rest from rfl,
          show sectionsMetadata (Section.metadata m :: rest) =
            m :: sectionsMetadata rest from rfl,
          show sectionsPatch (Section.metadata m :: rest) = sectionsPatch rest from rfl]
        simp [hp]
    | patch p =>
      cases hp : acc.patch with
      | some q =>
        simp only [visitLoop, step, hp]
        constructor
        · intro h; cases h
        · rintro ⟨⟨-, -, -, h1⟩, -⟩
          rw [show sectionsPatch (Section.patch p :: rest) =
            p :: sectionsPatch rest from rfl] at h1
          simp [hp] at h1
      | none =>
        simp only [visitLoop, step, hp]
        rw [ih]
        unfold Acc.compat Acc.after
        rw [show sectionsPackages (Section.patch p :: rest) = sectionsPackages rest from rfl,
          show sectionsRoot (Section.patch p :: rest) = sectionsRoot rest from rfl,
          show sectionsMetadata (Section.patch p :: rest) = sectionsMetadata rest from rfl,
          show sectionsPatch (Section.patch p :: rest) = p :: sectionsPatch rest from rfl]
        simp [hp]
    | unknown k hk =>
      simp only [visitLoop, step]
      rw [ih]
      unfold Acc.compat Acc.after
      rw [show sectionsPackages (Section.unknown k hk :: rest) = sectionsPackages rest from rfl,
        show sectionsRoot (Section.unknown k hk :: rest) = sectionsRoot rest from rfl,
        show sectionsMetadata (Section.unknown k hk :: rest) = sectionsMetadata rest from rfl,
        show sectionsPatch (Section.unknown k hk :: rest) = sectionsPatch rest from rfl]

/-- Shape of the failures of the key-streaming loop: the loop only ever
fails with a duplicate-field error, for a recognized key that occurs in
the document on top of an already filled accumulator field or of an
earlier occurrence. -/
theorem visitLoop_error (doc : List Section) :
    ∀ (acc : Acc) (e : Error), visitLoop acc doc = .error e →
      (e = .duplicateField "package" ∧ 2 ≤ optCount acc.packages + (sectionsPackages doc).length) ∨
      (e = .duplicateField "root" ∧ 2 ≤ optCount acc.root + (sectionsRoot doc).length) ∨
      (e = .duplicateField "metadata" ∧ 2 ≤ optCount acc.metadata + (sectionsMetadata doc).length) ∨
      (e = .duplicateField "patch" ∧ 2 ≤ optCount acc.patch + (sectionsPatch doc).length) := by
  induction doc with
  | nil => intro acc e h; cases h
  | cons s rest ih =>
    intro acc e h
    cases s with
    | package ps =>
      cases hp : acc.packages with
      | some q =>
        simp only [visitLoop, step, hp] at h
        cases h
        left
        refine ⟨rfl, ?_⟩
        simp [hp]
        omega
      | none =>
        simp only [visitLoop, step, hp] at h
        rcases ih _ _ h with ⟨rfl, h2⟩ | ⟨rfl, h2⟩ | ⟨rfl, h2⟩ | ⟨rfl, h2⟩ <;>
          [left; (right; left); (right; right; left); (right; right; right)] <;>
          refine ⟨rfl, ?_⟩ <;> simp [hp] at h2 ⊢ <;> omega
    | root d =>
      cases hp : acc.root with
      | some q =>
        simp only [visitLoop, step, hp] at h
        cases h
        right; left
        refine ⟨rfl, ?_⟩
        simp [hp]
        omega
      | none =>
        simp only [visitLoop, step, hp] at h
        rcases ih _ _ h with ⟨rfl, h2⟩ | ⟨rfl, h2⟩ | ⟨rfl, h2⟩ | ⟨rfl, h2⟩ <;>
          [left; (right; left); (right; right; left); (right; right; right)] <;>
          refine ⟨rfl, ?_⟩ <;> simp [hp] at h2 ⊢ <;> omega
    | metadata m =>
      cases hp : acc.metadata with
      | some q =>
        simp only [visitLoop, step, hp] at h
        cases h
        right; right; left
        refine ⟨rfl, ?_⟩
        simp [hp]
        omega
      | none =>
        simp only [visitLoop, step, hp] at h
        rcases ih _ _ h with ⟨rfl, h2⟩ | ⟨rfl, h2⟩ | ⟨rfl, h2⟩ | ⟨rfl, h2⟩ <;>
          [left; (right; left); (right; right; left); (right; right; right)] <;>
          refine ⟨rfl, ?_⟩ <;> simp [hp] at h2 ⊢ <;> omega
    | patch p =>
      cases hp : acc.patch with
      | some q =>
        simp only [visitLoop, step, hp] at h
        cases h
        right; right; right
        refine ⟨rfl, ?_⟩
        simp [hp]
        omega
      | none =>
        simp only [visitLoop, step, hp] at h
        rcases ih _ _ h with ⟨rfl, h2⟩ | ⟨rfl, h2⟩ | ⟨rfl, h2⟩ | ⟨rfl, h2⟩ <;>
          [left; (right; left); (right; right; left); (right; right; right)] <;>
          refine ⟨rfl, ?_⟩ <;> simp [hp] at h2 ⊢ <;> omega
    | unknown k hk =>
      simp only [visitLoop, step] at h
      rcases ih _ _ h with ⟨rfl, h2⟩ | ⟨rfl, h2⟩ | ⟨rfl, h2⟩ | ⟨rfl, h2⟩ <;>
        [left; (right; left); (right; right; left); (right; right; right)] <;>
        refine ⟨rfl, ?_⟩ <;> simpa using h2

/-- Keys of recognized sections versus the key-count function. -/
theorem length_sectionsPackages (doc : List Section) :
    (sectionsPackages doc).length = keyCount "package" doc := by
  induction doc with
  | nil => rfl
  | cons s rest ih =>
    cases s with
    | unknown k hk =>
      have hk' : ¬(k == "package") := by
        simp only [FIELDS] at hk
        simp_all
      simp_all [sectionsPackages, keyCount, Section.key, List.count_cons]
    | _ =>
      simp_all [sectionsPackages, keyCount, Section.key, List.count_cons]

/-- Keys of recognized sections versus the key-count function. -/
theorem length_sectionsRoot (doc : List Section) :
    (sectionsRoot doc).length = keyCount "root" doc := by
  induction doc with
  | nil => rfl
  | cons s rest ih =>
    cases s with
    | unknown k hk =>
      have hk' : ¬(k == "root") := by
        simp only [FIELDS] at hk
        simp_all
      simp_all [sectionsRoot, keyCount, Section.key, List.count_cons]
    | _ =>
      simp_all [sectionsRoot, keyCount, Section.key, List.count_cons]

/-- Keys of recognized sections versus the key-count function. -/
theorem length_sectionsMetadata (doc : List Section) :
    (sectionsMetadata doc).length = keyCount "metadata" doc := by
  induction doc with
  | nil => rfl
  | cons s rest ih =>
    cases s with
    | unknown k hk =>
      have hk' : ¬(k == "metadata") := by
        simp only [FIELDS] at hk
        simp_all
      simp_all [sectionsMetadata, keyCount, Section.key, List.count_cons]
    | _ =>
      simp_all [sectionsMetadata, keyCount, Section.key, List.count_cons]

/-- Keys of recognized sections versus the key-count function. -/
theorem length_sectionsPatch (doc : List Section) :
    (sectionsPatch doc).length = keyCount "patch" doc := by
  induction doc with
  | nil => rfl
  | cons s rest ih =>
    cases s with
    | unknown k hk =>
      have hk' : ¬(k == "patch") := by
        simp only [FIELDS] at hk
        simp_all
      simp_all [sectionsPatch, keyCount, Section.key, List.count_cons]
    | _ =>
      simp_all [sectionsPatch, keyCount, Section.key, List.count_cons]

/-- A permutation of a list with at most one element is the identity. -/
theorem eq_of_perm_of_length_le_one {α : Type} :
    ∀ {l l' : List α}, l.Perm l' → l.length ≤ 1 → l = l' := by
  intro l l' h hl
  cases l with
  | nil => exact (List.Perm.eq_nil h.symm).symm
  | cons a t =>
    cases t with
    | nil => exact (List.perm_singleton.mp h.symm).symm
    | cons b u => simp [List.length_cons] at hl

/-- The key-streaming loop skips a section with an unrecognized key. -/
theorem visitLoop_skip_unknown (l1 : List Section) :
    ∀ (acc : Acc) (k : String) (hk : k ∉ FIELDS) (l2 : List Section),
      visitLoop acc (l1 ++ Section.unknown k hk :: l2) = visitLoop acc (l1 ++ l2) := by
  induction l1 with
  | nil => intro acc k hk l2; simp [visitLoop, step]
  | cons s l1 ih =>
    intro acc k hk l2
    simp only [List.cons_append, visitLoop]
    cases h : step acc s <;> simp [ih]

/-- A document in which some recognized key occurs at least twice makes
deserialization fail with a duplicate-field error naming a recognized
key that occurs at least twice. -/
theorem deserialize_dup_of_count (doc : List Section) (k : String)
    (hk : k ∈ FIELDS) (hcount : 2 ≤ keyCount k doc) :
    ∃ k', k' ∈ FIELDS ∧ 2 ≤ keyCount k' doc ∧
      Lockfile.deserialize doc = .error (.duplicateField k') := by
  cases hl : visitLoop Acc.init doc with
  | ok acc =>
    exfalso
    obtain ⟨⟨h1, h2, h3, h4⟩, -⟩ := (visitLoop_ok_iff doc Acc.init acc).mp hl
    simp only [Acc.init, optCount_none, Nat.zero_add, length_sectionsPackages,
      length_sectionsRoot, length_sectionsMetadata, length_sectionsPatch] at h1 h2 h3 h4
    fin_cases hk <;> omega
  | error e =>
    have hd : Lockfile.deserialize doc = .error e := by
      unfold Lockfile.deserialize
      rw [hl]
    rcases visitLoop_error doc Acc.init e hl with ⟨rfl, h2⟩ | ⟨rfl, h2⟩ | ⟨rfl, h2⟩ | ⟨rfl, h2⟩
    · exact ⟨"package", by decide,
        by simpa [Acc.init, length_sectionsPackages] using h2, hd⟩
    · exact ⟨"root", by decide,
        by simpa [Acc.init, length_sectionsRoot] using h2, hd⟩
    · exact ⟨"metadata", by decide,
        by simpa [Acc.init, length_sectionsMetadata] using h2, hd⟩
    · exact ⟨"patch", by decide,
        by simpa [Acc.init, length_sectionsPatch] using h2, hd⟩

/-! ### Concrete fixtures used by witnesses and counterexamples -/

/-- A sample package with a source and no checksum. -/
def pkgFoo : Package := ⟨"foo", "1.0.0", some "registry", none, []⟩

/-- A sample package with neither source nor checksum. -/
def pkgBar : Package := ⟨"bar", "0.1.0", none, none, []⟩

/-- A sample dependency reference. -/
def depFoo : Dependency := ⟨"foo", some "1.0.0", none⟩

/-- The lockfile obtained from the single-package document. -/
def lfFoo : Lockfile := ⟨.v3, none, [pkgFoo], [], ⟨[]⟩⟩

/-! ### Claims -/

/-- Claim C1, counterexample: a document whose detected resolve version
is V1 (checksums in the legacy metadata table), translated without an
explicitly requested target version, is re-serialized at V3 — the
version decided at parse time is not kept. -/
theorem claimC1_cex :
    Lockfile.deserialize
        [Section.package [⟨"foo", "1.0.0", some "registry", none, []⟩],
         Section.metadata [("checksum foo 1.0.0 (registry)", "abc123")]] =
      .ok ⟨.v1, none, [⟨"foo", "1.0.0", some "registry", none, []⟩],
        [("checksum foo 1.0.0 (registry)", "abc123")], ⟨[]⟩⟩ ∧
    (TranslateCmd.run ⟨none, none, none⟩
        ⟨.v1, none, [⟨"foo", "1.0.0", some "registry", none, []⟩],
          [("checksum foo 1.0.0 (registry)", "abc123")], ⟨[]⟩⟩).version = .v3 ∧
    ResolveVersion.v3 ≠ ResolveVersion.v1 := by
  refine ⟨by decide, by decide, by decide⟩

/-- Claim C1 as amended: when the translate command is run without an
explicitly requested target version, the output document's resolve
version is the default (newest) revision rather than the version
decided at parse time; the input's detected revision is preserved
exactly when it already equals the default. -/
theorem claimC1 (cmd : TranslateCmd) (lf : Lockfile) (h : cmd.version = none) :
    (TranslateCmd.run cmd lf).version = ResolveVersion.default ∧
    ((TranslateCmd.run cmd lf).version = lf.version ↔ lf.version = ResolveVersion.default) := by
  simp only [TranslateCmd.run, h, Option.getD]
  exact ⟨trivial, eq_comm⟩

/-- Claim C1 witness. -/
theorem claimC1_wit :
    (TranslateCmd.run ⟨none, none, none⟩ lfFoo).version = ResolveVersion.default ∧
    ((TranslateCmd.run ⟨none, none, none⟩ lfFoo).version = lfFoo.version ↔
      lfFoo.version = ResolveVersion.default) :=
  claimC1 ⟨none, none, none⟩ lfFoo rfl

/-- Claim C2: a document in which a recognized top-level key occurs more
than once fails to deserialize with a duplicate-field error naming a
recognized key occurring more than once (the duplicated key itself when
it is the only one); no lockfile is produced. -/
theorem claimC2 (doc : List Section) (k : String) (hk : k ∈ FIELDS)
    (hcount : 2 ≤ keyCount k doc) :
    (∃ k', k' ∈ FIELDS ∧ 2 ≤ keyCount k' doc ∧
      Lockfile.deserialize doc = .error (.duplicateField k')) ∧
    ((∀ j ∈ FIELDS, j ≠ k → keyCount j doc ≤ 1) →
      Lockfile.deserialize doc = .error (.duplicateField k)) ∧
    (∀ L, Lockfile.deserialize doc ≠ .ok L) := by
  obtain ⟨k', hk', hc', hd'⟩ := deserialize_dup_of_count doc k hk hcount
  refine ⟨⟨k', hk', hc', hd'⟩, ?_, ?_⟩
  · intro hun
    by_cases hkk : k' = k
    · rw [← hkk]; exact hd'
    · have := hun k' hk' hkk
      omega
  · intro L hL
    rw [hd'] at hL
    cases hL

/-- Claim C2 witness. -/
theorem claimC2_wit :
    Lockfile.deserialize [Section.root depFoo, Section.root depFoo] =
      .error (.duplicateField "root") :=
  (claimC2 [Section.root depFoo, Section.root depFoo] "root"
    (by decide) (by decide)).2.1 (by decide)

/-- Claim C3, counterexample: a document with no `package` section but
with a duplicated `root` section fails with the duplicate-field error,
not with the missing-field error for `package`. -/
theorem claimC3_cex :
    keyCount "package" [Section.root depFoo, Section.root depFoo] = 0 ∧
    Lockfile.deserialize [Section.root depFoo, Section.root depFoo] =
      .error (.duplicateField "root") ∧
    Error.duplicateField "root" ≠ Error.missingField "package" := by
  refine ⟨by decide, by decide, by decide⟩

/-- Claim C3 as amended: no document lacking a `package` section ever
yields a lockfile, and such a document fails with the missing-field
error for `package` whenever no recognized section is duplicated. -/
theorem claimC3 (doc : List Section) (h0 : keyCount "package" doc = 0) :
    (∀ L, Lockfile.deserialize doc ≠ .ok L) ∧
    ((∀ j ∈ FIELDS, keyCount j doc ≤ 1) →
      Lockfile.deserialize doc = .error (.missingField "package")) := by
  have hempty : sectionsPackages doc = [] := by
    rw [← List.length_eq_zero, length_sectionsPackages]
    exact h0
  constructor
  · intro L hL
    unfold Lockfile.deserialize at hL
    cases hl : visitLoop Acc.init doc with
    | error e => rw [hl] at hL; cases hL
    | ok acc =>
      rw [hl] at hL
      obtain ⟨-, rfl⟩ := (visitLoop_ok_iff doc Acc.init acc).mp hl
      unfold finalize at hL
      simp [Acc.after, Acc.init, hempty] at hL
  · intro hall
    have hcompat : Acc.compat Acc.init doc := by
      refine ⟨?_, ?_, ?_, ?_⟩ <;>
        simp only [Acc.init, optCount_none, Nat.zero_add, length_sectionsPackages,
          length_sectionsRoot, length_sectionsMetadata, length_sectionsPatch] <;>
        exact hall _ (by decide)
    have hloop : visitLoop Acc.init doc = .ok (Acc.after Acc.init doc) :=
      (visitLoop_ok_iff doc Acc.init _).mpr ⟨hcompat, rfl⟩
    unfold Lockfile.deserialize
    rw [hloop]
    unfold finalize
    simp [Acc.after, Acc.init, hempty]

/-- Claim C3 witness. -/
theorem claimC3_wit :
    Lockfile.deserialize [Section.metadata []] = .error (.missingField "package") :=
  (claimC3 [Section.metadata []] (by decide)).2 (by decide)

/-- Claim C4: the deserializer recognizes exactly the four top-level
keys `package`, `root`, `metadata` and `patch`; a section with any
other top-level key is silently ignored, and parsing yields the same
result as for the document with that section removed. -/
theorem claimC4 :
    (∀ value : String, FieldVisitor.visitStr value ≠ Field.ignore ↔ value ∈ FIELDS) ∧
    (∀ (l1 l2 : List Section) (k : String) (hk : k ∉ FIELDS),
      Lockfile.deserialize (l1 ++ Section.unknown k hk :: l2) =
        Lockfile.deserialize (l1 ++ l2)) := by
  constructor
  · intro value
    unfold FieldVisitor.visitStr
    split <;> simp_all [FIELDS]
  · intro l1 l2 k hk
    unfold Lockfile.deserialize
    rw [visitLoop_skip_unknown]

/-- Claim C4 witness. -/
theorem claimC4_wit :
    Lockfile.deserialize
        [Section.package [pkgFoo], Section.unknown "version" (by decide)] =
      Lockfile.deserialize [Section.package [pkgFoo]] :=
  claimC4.2 [Section.package [pkgFoo]] [] "version" (by decide)

/-- Claim C5: deserialization is insensitive to the order of the
top-level sections — every permutation of a successfully parsed
document parses to the very same lockfile. -/
theorem claimC5 (doc doc' : List Section) (L : Lockfile) (hp : doc.Perm doc')
    (h : Lockfile.deserialize doc = .ok L) :
    Lockfile.deserialize doc' = .ok L := by
  unfold Lockfile.deserialize at h ⊢
  cases hl : visitLoop Acc.init doc with
  | error e => rw [hl] at h; cases h
  | ok acc =>
    rw [hl] at h
    obtain ⟨⟨h1, h2, h3, h4⟩, rfl⟩ := (visitLoop_ok_iff doc Acc.init acc).mp hl
    have e1 : sectionsPackages doc = sectionsPackages doc' :=
      eq_of_perm_of_length_le_one (hp.filterMap _) (by simpa [Acc.init] using h1)
    have e2 : sectionsRoot doc = sectionsRoot doc' :=
      eq_of_perm_of_length_le_one (hp.filterMap _) (by simpa [Acc.init] using h2)
    have e3 : sectionsMetadata doc = sectionsMetadata doc' :=
      eq_of_perm_of_length_le_one (hp.filterMap _) (by simpa [Acc.init] using h3)
    have e4 : sectionsPatch doc = sectionsPatch doc' :=
      eq_of_perm_of_length_le_one (hp.filterMap _) (by simpa [Acc.init] using h4)
    have hcompat' : Acc.compat Acc.init doc' := by
      unfold Acc.compat
      rw [← e1, ← e2, ← e3, ← e4]
      exact ⟨h1, h2, h3, h4⟩
    have hafter : Acc.after Acc.init doc' = Acc.after Acc.init doc := by
      unfold Acc.after
      rw [e1, e2, e3, e4]
    have hloop' : visitLoop Acc.init doc' = .ok (Acc.after Acc.init doc') :=
      (visitLoop_ok_iff doc' Acc.init _).mpr ⟨hcompat', rfl⟩
    rw [hloop', hafter]
    exact h

/-- Claim C5 witness. -/
theorem claimC5_wit :
    Lockfile.deserialize [Section.metadata [], Section.package [pkgFoo]] =
      .ok ⟨.v3, none, [pkgFoo], [], ⟨[]⟩⟩ :=
  claimC5 [Section.package [pkgFoo], Section.metadata []]
    [Section.metadata [], Section.package [pkgFoo]] ⟨.v3, none, [pkgFoo], [], ⟨[]⟩⟩
    (List.Perm.swap (Section.metadata []) (Section.package [pkgFoo]) [])
    (by decide)

/-- Claim C6: once the key loop has consumed all sections, the version
detector is invoked on the decoded package list and the metadata
(defaulted to empty when absent, as is patch); a detection failure is
propagated as the deserialization error, and on success the resulting
lockfile is tagged with the detected resolve version. -/
theorem claimC6 (doc : List Section) (ps : List Package) (rt : Option Dependency)
    (md : Option Metadata) (pt : Option Patch)
    (h : visitLoop Acc.init doc = .ok ⟨some ps, rt, md, pt⟩) :
    (∀ e, ResolveVersion.detect ps (md.getD []) = .error e →
      Lockfile.deserialize doc = .error e) ∧
    (∀ v, ResolveVersion.detect ps (md.getD []) = .ok v →
      Lockfile.deserialize doc = .ok ⟨v, rt, ps, md.getD [], pt.getD ⟨[]⟩⟩) := by
  unfold Lockfile.deserialize
  rw [h]
  unfold finalize
  constructor
  · intro e he
    simp [he]
  · intro v hv
    simp [hv]

/-- Claim C6 witness. -/
theorem claimC6_wit :
    Lockfile.deserialize [Section.package [pkgFoo]] =
      .ok ⟨.v3, none, [pkgFoo], [], ⟨[]⟩⟩ :=
  (claimC6 [Section.package [pkgFoo]] [pkgFoo] none none none (by decide)).2
    .v3 (by decide)

/-- When a requested name matches no package, the per-name loop of the
tree command fails naming an absent requested name. -/
theorem renderTrees_absent :
    ∀ (deps : List String) (lf : Lockfile) (tree : Tree) (d : String),
      d ∈ deps → (∀ p ∈ lf.packages, p.name ≠ d) →
      ∃ d', d' ∈ deps ∧ (∀ p ∈ lf.packages, p.name ≠ d') ∧
        TreeCmd.renderTrees lf tree deps = .error (.invalidDependencyName d') := by
  intro deps
  induction deps with
  | nil => intro lf tree d hd; cases hd
  | cons dep rest ih =>
    intro lf tree d hd habs
    cases hfind : lf.packages.find? (fun p => p.name == dep) with
    | none =>
      refine ⟨dep, List.mem_cons_self _ _, ?_, ?_⟩
      · intro p hp
        have := List.find?_eq_none.mp hfind p hp
        simpa using this
      · simp [TreeCmd.renderTrees, hfind]
    | some pkg =>
      have hdd : d ≠ dep := by
        rintro rfl
        have hmem := List.mem_of_find?_eq_some hfind
        have hpred := List.find?_some hfind
        exact habs pkg hmem (by simpa using hpred)
      have hd' : d ∈ rest := by
        rcases List.mem_cons.mp hd with h | h
        · exact absurd h hdd
        · exact h
      obtain ⟨d', hmem', habs', heq⟩ := ih lf tree d hd' habs
      exact ⟨d', List.mem_cons_of_mem _ hmem', habs',
        by simp [TreeCmd.renderTrees, hfind, heq]⟩

/-- When every requested name matches a package, the per-name loop of
the tree command succeeds with one rendered tree per requested name. -/
theorem renderTrees_present :
    ∀ (deps : List String) (lf : Lockfile) (tree : Tree),
      (∀ d ∈ deps, ∃ p ∈ lf.packages, p.name = d) →
      ∃ out, TreeCmd.renderTrees lf tree deps = .ok out ∧
        out.length = deps.length := by
  intro deps
  induction deps with
  | nil => intro lf tree _; exact ⟨[], rfl, rfl⟩
  | cons dep rest ih =>
    intro lf tree hall
    obtain ⟨p, hp, hname⟩ := hall dep (List.mem_cons_self _ _)
    have hfind : (lf.packages.find? fun q => q.name == dep).isSome := by
      rw [List.find?_isSome]
      exact ⟨p, hp, by simp [hname]⟩
    obtain ⟨pkg, hpkg⟩ := Option.isSome_iff_exists.mp hfind
    obtain ⟨out, heq, hlen⟩ := ih lf tree fun d hd => hall d (List.mem_cons_of_mem _ hd)
    exact ⟨tree.render (tree.nodes.indexOf pkg.id) EdgeDirection.incoming :: out,
      by simp [TreeCmd.renderTrees, hpkg, heq], by simp [hlen]⟩

/-- Every tree emitted by the per-name loop of the tree command is the
incoming-direction rendering for the first package carrying the
corresponding requested name. -/
theorem renderTrees_forall2 :
    ∀ (deps : List String) (lf : Lockfile) (tree : Tree) (out : List (List String)),
      TreeCmd.renderTrees lf tree deps = .ok out →
      List.Forall₂ (fun d r => ∃ pkg,
        lf.packages.find? (fun p => p.name == d) = some pkg ∧
        r = tree.render (tree.nodes.indexOf pkg.id) EdgeDirection.incoming)
        deps out := by
  intro deps
  induction deps with
  | nil =>
    intro lf tree out h
    cases h
    exact List.Forall₂.nil
  | cons dep rest ih =>
    intro lf tree out h
    cases hfind : lf.packages.find? (fun p => p.name == dep) with
    | none => simp [TreeCmd.renderTrees, hfind] at h
    | some pkg =>
      cases hrt : TreeCmd.renderTrees lf tree rest with
      | error e => simp [TreeCmd.renderTrees, hfind, hrt] at h
      | ok outs =>
        simp only [TreeCmd.renderTrees, hfind, hrt] at h
        cases h
        exact List.Forall₂.cons ⟨pkg, hfind, rfl⟩ (ih lf tree outs hrt)

/-- Claim C7: on a lockfile whose dependency graph builds, the tree
command fails when no names are given, fails naming an absent requested
name whenever one of the given names matches no package, and otherwise
prints one tree per given package name. -/
theorem claimC7 (cmd : TreeCmd) (lf : Lockfile) (tree : Tree)
    (hT : lf.dependency_tree = .ok tree) :
    (cmd.dependencies = [] → TreeCmd.run cmd lf = .error .noDependencyNames) ∧
    (∀ d, d ∈ cmd.dependencies → (∀ p ∈ lf.packages, p.name ≠ d) →
      ∃ d', d' ∈ cmd.dependencies ∧ (∀ p ∈ lf.packages, p.name ≠ d') ∧
        TreeCmd.run cmd lf = .error (.invalidDependencyName d')) ∧
    (cmd.dependencies ≠ [] →
      (∀ d ∈ cmd.dependencies, ∃ p ∈ lf.packages, p.name = d) →
      ∃ out, TreeCmd.run cmd lf = .ok out ∧
        out.length = cmd.dependencies.length) := by
  have hrun : TreeCmd.run cmd lf =
      (if cmd.dependencies.isEmpty then .error .noDependencyNames
       else TreeCmd.renderTrees lf tree cmd.dependencies) := by
    unfold TreeCmd.run
    rw [hT]
  refine ⟨?_, ?_, ?_⟩
  · intro h
    rw [hrun]
    simp [h]
  · intro d hd habs
    have hne : cmd.dependencies.isEmpty = false := by
      cases h' : cmd.dependencies with
      | nil => rw [h'] at hd; cases hd
      | cons a t => rfl
    rw [hrun, hne]
    simp only [Bool.false_eq_true, if_false]
    exact renderTrees_absent _ lf tree d hd habs
  · intro hne hall
    have hne' : cmd.dependencies.isEmpty = false := by
      cases h' : cmd.dependencies with
      | nil => exact absurd h' hne
      | cons a t => rfl
    rw [hrun, hne']
    simp only [Bool.false_eq_true, if_false]
    exact renderTrees_present _ lf tree hall

/-- Claim C7 witness. -/
theorem claimC7_wit :
    TreeCmd.run ⟨none, []⟩ lfFoo = .error .noDependencyNames :=
  (claimC7 ⟨none, []⟩ lfFoo ⟨[pkgFoo.id], []⟩ (by decide)).1 rfl

/-- Claim C8, counterexample: the list command prefixes every line with
a dash and a space, so the line for a package is not literally of the
form `name version`. -/
theorem claimC8_cex :
    ListCmd.run ⟨.v3, none, [pkgBar], [], ⟨[]⟩⟩ = ["- bar 0.1.0"] ∧
    ListCmd.run ⟨.v3, none, [pkgBar], [], ⟨[]⟩⟩ ≠ ["bar 0.1.0"] := by
  refine ⟨by decide, by decide⟩

/-- Claim C8 as amended: the list command prints exactly one line per
package, in package-list order, each line being a dash and a space
followed by the package's name and version, plus the parenthesized
source when the package has one. -/
theorem claimC8 (lf : Lockfile) :
    ListCmd.run lf = lf.packages.map fun p =>
      "- " ++ p.name ++ " " ++ p.version ++
        (match p.source with
         | some s => " (" ++ s ++ ")"
         | none => "") := by
  unfold ListCmd.run
  congr 1
  funext p
  cases hs : p.source <;>
    simp [Dependency.display, Dependency.fromPackage, hs, String.append_assoc]

/-- Claim C9: a document that both lacks a `package` section and
duplicates some recognized section fails with the duplicate-field
error, never with the missing-field error: duplicates are detected
while streaming keys, before the mandatory-package check runs. -/
theorem claimC9 (doc : List Section) (h0 : keyCount "package" doc = 0)
    (hdup : ∃ k, k ∈ FIELDS ∧ 2 ≤ keyCount k doc) :
    ∃ k', Lockfile.deserialize doc = .error (.duplicateField k') ∧
      ∀ j, Lockfile.deserialize doc ≠ .error (.missingField j) := by
  obtain ⟨k, hk, hc⟩ := hdup
  obtain ⟨k', -, -, hd'⟩ := deserialize_dup_of_count doc k hk hc
  refine ⟨k', hd', ?_⟩
  intro j hj
  rw [hd'] at hj
  simp at hj

/-- Claim C9 witness. -/
theorem claimC9_wit :
    ∃ k', Lockfile.deserialize [Section.metadata [], Section.metadata []] =
        .error (.duplicateField k') ∧
      ∀ j, Lockfile.deserialize [Section.metadata [], Section.metadata []] ≠
        .error (.missingField j) :=
  claimC9 [Section.metadata [], Section.metadata []] (by decide)
    ⟨"metadata", by decide, by decide⟩

/-- Claim C10: the tree command's options are exactly an input file and
the list of names — there is no field through which a direction could
be requested — and every tree a successful invocation prints is the
rendering with the incoming edge direction (what depends on the named
package). -/
theorem claimC10 :
    (∀ a b : TreeCmd, a.file = b.file → a.dependencies = b.dependencies → a = b) ∧
    (∀ (cmd : TreeCmd) (lf : Lockfile) (tree : Tree) (out : List (List String)),
      lf.dependency_tree = .ok tree → TreeCmd.run cmd lf = .ok out →
      List.Forall₂ (fun d r => ∃ pkg,
        lf.packages.find? (fun p => p.name == d) = some pkg ∧
        r = tree.render (tree.nodes.indexOf pkg.id) EdgeDirection.incoming)
        cmd.dependencies out) := by
  constructor
  · intro a b h1 h2
    cases a
    cases b
    simp_all
  · intro cmd lf tree out hT hrun
    have heq : TreeCmd.run cmd lf =
        (if cmd.dependencies.isEmpty then .error .noDependencyNames
         else TreeCmd.renderTrees lf tree cmd.dependencies) := by
      unfold TreeCmd.run
      rw [hT]
    rw [heq] at hrun
    by_cases he : cmd.dependencies.isEmpty = true
    · rw [if_pos he] at hrun
      cases hrun
    · rw [if_neg he] at hrun
      exact renderTrees_forall2 _ lf tree out hrun

/-- Claim C10 witness. -/
theorem claimC10_wit :
    List.Forall₂ (fun d r => ∃ pkg,
      lfFoo.packages.find? (fun p => p.name == d) = some pkg ∧
      r = Tree.render ⟨[pkgFoo.id], []⟩
        ((⟨[pkgFoo.id], []⟩ : Tree).nodes.indexOf pkg.id) EdgeDirection.incoming)
      ["foo"] [["foo 1.0.0"]] :=
  claimC10.2 ⟨none, ["foo"]⟩ lfFoo ⟨[pkgFoo.id], []⟩ [["foo 1.0.0"]]
    (by decide) (by decide)

end CargoLock
